import Mathlib

/-!
Verification of the Data-Science-Group-10 marketplace crawlers.

This file gives a shallow embedding, in Lean 4, of the pure core of the
crawlers in `bonbanh_crawler.py`, `BTL01/bonbanh.com/crawler.py`,
`xe.chotot.com/crawler.py` and `oto.com.vn/crawler.py`, and proves the
behavioural claims about them.

Embedding conventions:
* Python strings are Lean `String`s; most work happens on `List Char`
  (`String.toList`), and every recursion is structural so that terms
  evaluate by `decide`/`rfl`.
* `BeautifulSoup` and Playwright are external libraries: markup is
  abstracted to what the crawlers read from it (the list of anchor
  `href` attributes of a page, the linearised body text `get_text("\n")`,
  and the text of the first `h1`/`h2` heading).  Universally quantifying
  over these inputs covers every possible markup, well-formed or not.
* The specific regular expressions used by the crawlers are translated
  into dedicated structurally recursive matchers.  Where a pattern's
  backtracking collapses to a deterministic scan this is noted at the
  matcher.  `\s`, `\d` and `\w` are modelled over the ASCII/Latin
  repertoire exercised by the sites (Python's `re` would additionally
  accept exotic Unicode whitespace/digits).
* `urllib.parse.urljoin`/`urlparse` are modelled for the URL shapes the
  crawlers produce (absolute, protocol-relative, root-relative and plain
  relative references against a `scheme://host` base; no dot-segment
  normalisation), which is exactly how the crawlers call them.
* Fallible Python code (statements that can raise) is translated with
  `Except`; code that cannot raise is translated as a total function.
-/

namespace DSG10

/-! ## Python string primitives -/

/-- The characters Python's `str.strip()` and `\s` treat as whitespace
(ASCII variants; Python also accepts rare Unicode whitespace). -/
def pyIsSpace (c : Char) : Bool :=
  c = ' ' || c = '\t' || c = '\n' || c = '\x0d' || c = '\x0b' || c = '\x0c'

/-- ASCII decimal digit, modelling the regex class `\d`. -/
def pyIsDigit (c : Char) : Bool := '0' ≤ c && c ≤ '9'

/-- Python `str.lower()` restricted to ASCII plus the precomposed
Vietnamese letters that appear in the crawlers' patterns and pages:
`A`–`Z`, the Latin-1 uppercase range `À`–`Þ` (excluding `×`), the
letters `Ă Đ Ĩ Ũ Ơ Ư`, and the Latin Extended Additional range
`Ạ`–`Ỹ` (uppercase at even code points, lowercase one above). -/
def pyLowerChar (c : Char) : Char :=
  let n := c.toNat
  if 65 ≤ n && n ≤ 90 then Char.ofNat (n + 32)
  else if 192 ≤ n && n ≤ 222 && n ≠ 215 then Char.ofNat (n + 32)
  else if n = 0x102 || n = 0x110 || n = 0x128 || n = 0x168 || n = 0x1a0 || n = 0x1af then
    Char.ofNat (n + 1)
  else if 0x1ea0 ≤ n && n ≤ 0x1ef9 && n % 2 = 0 then Char.ofNat (n + 1)
  else c

/-- The regex class `\w` (word character) over the Latin repertoire:
ASCII alphanumerics, underscore, and Latin letters with diacritics
(`À`(U+00C0)–`ɏ`(U+024F) minus `×` and `÷`). -/
def isWordChar (c : Char) : Bool :=
  c.isAlphanum || c = '_' ||
    (0xc0 ≤ c.toNat && c.toNat ≤ 0x24f && c.toNat ≠ 0xd7 && c.toNat ≠ 0xf7)

/-- Python `str.strip()` on a character list. -/
def pyStripL (l : List Char) : List Char :=
  ((l.dropWhile pyIsSpace).reverse.dropWhile pyIsSpace).reverse

/-- Python `str.strip()`. -/
def pyStrip (s : String) : String := ⟨pyStripL s.toList⟩

/-- Python `str.rstrip(c)` for a single strip character `c`:
removes every trailing occurrence of `c`. -/
def rstripChar (c : Char) (l : List Char) : List Char :=
  (l.reverse.dropWhile (· = c)).reverse

/-- Python `str.lstrip(c)` for a single strip character. -/
def lstripChar (c : Char) (l : List Char) : List Char :=
  l.dropWhile (· = c)

/-- `str.splitlines()` splitting on `\n`, `\r\n` and `\r` (the three
separators the crawlers can meet; Python also splits on rare controls).
Produces the raw segments including a final empty segment for a
terminator-ending string; `splitLines` drops that final empty segment,
matching Python. -/
def splitLinesAux : List Char → List Char → List (List Char)
  | [], acc => [acc.reverse]
  | '\x0d' :: '\n' :: rest, acc => acc.reverse :: splitLinesAux rest []
  | '\x0d' :: rest, acc => acc.reverse :: splitLinesAux rest []
  | '\n' :: rest, acc => acc.reverse :: splitLinesAux rest []
  | c :: rest, acc => splitLinesAux rest (c :: acc)

/-- `str.splitlines()`. -/
def splitLines (l : List Char) : List (List Char) :=
  let r := splitLinesAux l []
  if r.getLast? = some [] then r.dropLast else r

/-- The line preprocessing shared by both spec parsers:
`[ln.strip() for ln in text.splitlines() if ln.strip()]`. -/
def pyLinesStrippedL (l : List Char) : List (List Char) :=
  ((splitLines l).map pyStripL).filter (· ≠ [])

/-- String-level version of `pyLinesStrippedL`. -/
def pyLinesStripped (s : String) : List String :=
  (pyLinesStrippedL s.toList).map (⟨·⟩)

/-- Python `s.split(sep, 1)` for a single-character separator: the part
before the first occurrence, and — when the separator occurs — the rest. -/
def splitFirstAux (sep : Char) : List Char → List Char → List Char × Option (List Char)
  | [], acc => (acc.reverse, none)
  | c :: rest, acc =>
    if c = sep then (acc.reverse, some rest) else splitFirstAux sep rest (c :: acc)

/-- Python `s.split(sep, 1)` for a single-character separator. -/
def splitFirstL (sep : Char) (l : List Char) : List Char × Option (List Char) :=
  splitFirstAux sep l []

/-- Python `s.split("?")[0]`. -/
def stripQuery (s : String) : String := ⟨(splitFirstL '?' s.toList).1⟩

/-- Python `s.rstrip("/")`. -/
def rstripSlashes (s : String) : String := ⟨rstripChar '/' s.toList⟩

/-- Case-sensitive prefix test on character lists. -/
def isPrefixL (pat l : List Char) : Bool := List.isPrefixOf pat l

/-- Case-insensitive prefix test, modelling
`s.lower().startswith(pat.lower())` and `re.I` literal matching. -/
def isPrefixCI (pat l : List Char) : Bool :=
  List.isPrefixOf (pat.map pyLowerChar) (l.map pyLowerChar)

/-- Remainder of `l` after a case-insensitive literal prefix, when present. -/
def stripPrefixCI (pat l : List Char) : Option (List Char) :=
  if isPrefixCI pat l then some (l.drop pat.length) else none

/-- Python `pat in s` (substring containment) and `str.find`; returns the
leftmost index of `pat` in `l`, if any. -/
def findSubAux (pat : List Char) : List Char → Nat → Option Nat
  | [], i => if pat = [] then some i else none
  | l@(_ :: rest), i => if isPrefixL pat l then some i else findSubAux pat rest (i + 1)

/-- Leftmost index of a substring (Python `str.find`, as an `Option`). -/
def findSubL (pat l : List Char) : Option Nat := findSubAux pat l 0

/-- Python `s.find(pat, start)` as an `Option` (absolute index). -/
def findSubFromL (pat l : List Char) (start : Nat) : Option Nat :=
  (findSubAux pat (l.drop start) start)

/-- Python `pat in s` substring test for strings. -/
def containsSubS (pat s : String) : Bool := (findSubL pat.toList s.toList).isSome

/-- Python slice `l[a:b]` (clamping like Python). -/
def sliceL (l : List Char) (a b : Nat) : List Char := (l.drop a).take (b - a)

/-- Python `s.replace(pat, "")` (remove all non-overlapping occurrences,
left to right).  Fuel-structural so that it evaluates in the kernel. -/
def removeAllFuel (pat : List Char) : Nat → List Char → List Char
  | 0, l => l
  | _ + 1, [] => []
  | fuel + 1, l@(c :: rest) =>
    if pat ≠ [] && isPrefixL pat l then removeAllFuel pat fuel (l.drop pat.length)
    else c :: removeAllFuel pat fuel rest

/-- Python `s.replace(pat, "")`. -/
def removeAllL (pat l : List Char) : List Char := removeAllFuel pat l.length l

/-- `re.sub(r"[\n\t]+", " ", s)`: collapse each run of newlines/tabs into
a single space. -/
def collapseNlTabAux : List Char → Bool → List Char
  | [], _ => []
  | c :: rest, inRun =>
    if c = '\n' || c = '\t' then
      if inRun then collapseNlTabAux rest true else ' ' :: collapseNlTabAux rest true
    else c :: collapseNlTabAux rest false

/-- `re.sub(r"[\n\t]+", " ", s)`. -/
def collapseNlTab (s : String) : String := ⟨collapseNlTabAux s.toList false⟩

/-- Python `s.split()` (split on whitespace runs, dropping empties). -/
def wsSplitAux : List Char → List Char → List (List Char)
  | [], acc => if acc = [] then [] else [acc.reverse]
  | c :: rest, acc =>
    if pyIsSpace c then
      if acc = [] then wsSplitAux rest [] else acc.reverse :: wsSplitAux rest []
    else wsSplitAux rest (c :: acc)

/-- Python `" ".join(s.split())` (normalise internal whitespace). -/
def joinSingleSpaces (l : List Char) : List Char :=
  List.intercalate [' '] (wsSplitAux l [])

/-- Python `int(s)` (ASCII form): optional surrounding whitespace, an
optional sign, then digits with single interior underscores allowed. -/
def pyIntDigits : List Char → Option ℤ → Option ℤ
  | [], acc => acc
  | '_' :: c :: rest, some acc =>
    if pyIsDigit c then pyIntDigits rest (some (acc * 10 + (c.toNat - 48 : ℤ))) else none
  | c :: rest, acc =>
    if pyIsDigit c then
      pyIntDigits rest (some ((acc.getD 0) * 10 + (c.toNat - 48 : ℤ)))
    else none

/-- Python `int(s)`, `none` when `int` would raise `ValueError`. -/
def pyInt (s : String) : Option ℤ :=
  match pyStripL s.toList with
  | '+' :: rest => pyIntDigits rest none
  | '-' :: rest => (pyIntDigits rest none).map (- ·)
  | l => pyIntDigits l none

/-! ## Pattern matchers for the crawlers' regular expressions -/

/-- Scan for the leftmost position where the literal `pat` is followed by
a tail accepted by `tailMatch`, returning that tail match.  This is the
`re.search` discipline: if the literal matches at a position but the tail
does not, the scan resumes at the next position. -/
def scanFor (pat : List Char) (tailMatch : List Char → Option (List Char)) :
    List Char → Option (List Char)
  | [] => none
  | l@(_ :: rest) =>
    (if isPrefixL pat l then tailMatch (l.drop pat.length) else none) <|>
      scanFor pat tailMatch rest

/-- Tail of `re.search(r"Mã tin\s*[:：]?\s*(\d+)", text)` after the literal
`Mã tin`: greedy whitespace, an optional colon (ASCII or fullwidth),
greedy whitespace, then the captured maximal digit run.  (The `\s*`/`[:：]?`
backtracking collapses to this scan because whitespace, the colons and
digits are pairwise disjoint.) -/
def maTinTail (l : List Char) : Option (List Char) :=
  let l1 := l.dropWhile pyIsSpace
  let l2 := match l1 with
    | c :: rest => if c = ':' || c = '：' then rest else l1
    | [] => l1
  let ds := (l2.dropWhile pyIsSpace).takeWhile pyIsDigit
  if ds = [] then none else some ds

/-- `re.search(r"Mã tin\s*[:：]?\s*(\d+)", text)`, group 1. -/
def searchMaTin (s : String) : Option String :=
  (scanFor "Mã tin".toList maTinTail s.toList).map (⟨·⟩)

/-- `re.search(r"-([0-9]{5,10})$", url)`, group 1: the match must end the
string, so it exists exactly when the maximal trailing digit run has
length 5–10 and is preceded by a hyphen (`-` and digits cannot overlap,
so no other backtracking alternative exists). -/
def trailingId (s : String) : Option String :=
  let r := s.toList.reverse
  let ds := r.takeWhile pyIsDigit
  match r.drop ds.length with
  | '-' :: _ => if 5 ≤ ds.length && ds.length ≤ 10 then some ⟨ds.reverse⟩ else none
  | _ => none

/-- Character class `[\d/]` of the posted-date pattern. -/
def isDateChar (c : Char) : Bool := pyIsDigit c || c = '/'

/-- Tail of `re.search(r"Đăng ngày\s*([\d/]{6,12})", text)` after the
literal: greedy whitespace then 6–12 date characters (greedy, so the
capture is the first `min(12, run length)` characters of a run of at
least 6). -/
def dateTail (l : List Char) : Option (List Char) :=
  let run := (l.dropWhile pyIsSpace).takeWhile isDateChar
  if 6 ≤ run.length then some (run.take 12) else none

/-- `re.search(r"Đăng ngày\s*([\d/]{6,12})", text)`, group 1. -/
def searchDate (s : String) : Option String :=
  (scanFor "Đăng ngày".toList dateTail s.toList).map (⟨·⟩)

/-- Character class `[\d\.,\s]` of the bonbanh price pattern. -/
def isPriceFill (c : Char) : Bool := pyIsDigit c || c = '.' || c = ',' || pyIsSpace c

/-- The price-unit alternation `(Tỷ|Triệu|VNĐ|đ|VND)` with `re.I`,
tried in the regex's order; returns the matched unit verbatim. -/
def priceUnitAt (l : List Char) : Option (List Char) :=
  (["tỷ", "triệu", "vnđ", "đ", "vnd"].findSome? fun u =>
    if isPrefixCI u.toList l then some (l.take u.toList.length) else none)

/-- One-position match of `\d[\d\.,\s]*\d?\s*(Tỷ|Triệu|VNĐ|đ|VND)` (with
`re.I`), returning group 0.  The unit's first letter is not in the fill
class `[\d\.,\s]` (which also subsumes `\d?` and `\s*`), so the unit can
only start exactly where the maximal fill run ends, and backtracking
collapses to this deterministic scan. -/
def priceAt : List Char → Option (List Char)
  | [] => none
  | c :: rest =>
    if pyIsDigit c then
      let run := rest.takeWhile isPriceFill
      match priceUnitAt (rest.drop run.length) with
      | some u => some (c :: (run ++ u))
      | none => none
    else none

/-- `re.search` scan for the bonbanh price pattern; the crawler then
applies `.strip()` to group 0. -/
def searchPriceAux : List Char → Option (List Char)
  | [] => none
  | l@(_ :: rest) => priceAt l <|> searchPriceAux rest

/-- `mprice.group(0).strip()` for
`re.search(r"(\d[\d\.,\s]*\d?)\s*(Tỷ|Triệu|VNĐ|đ|VND)", s, re.I)`. -/
def searchPrice (s : String) : Option String :=
  (searchPriceAux s.toList).map (fun g => ⟨pyStripL g⟩)

/-- Class `[\w\-_]` of the bonbanh listing-link pattern. -/
def xeClass (c : Char) : Bool := isWordChar c || c = '-' || c = '_'

/-- Match `[\w\-_]+-\d+` at the current position (after the literal
`xe-`): the flag records whether at least one class character has been
consumed; the pattern succeeds at the first `-` that follows at least one
class character and is itself followed by a digit. -/
def xeGo : List Char → Bool → Bool
  | [], _ => false
  | c :: rest, flag =>
    if flag && c = '-' && (match rest with | d :: _ => pyIsDigit d | [] => false) then true
    else if xeClass c then xeGo rest true
    else false

/-- `re.search(r"(?:/)?xe-[\w\-_]+-\d+", path, re.I)` as a Boolean: the
optional leading slash never affects existence of a match. -/
def pattSearch : List Char → Bool
  | [] => false
  | l@(_ :: rest) =>
    (match l with
     | a :: b :: c :: r2 => pyLowerChar a = 'x' && pyLowerChar b = 'e' && c = '-' && xeGo r2 false
     | _ => false) || pattSearch rest

/-! ## URL model (`urllib.parse` as used by the crawlers) -/

/-- RFC 3986 scheme characters (CPython's `scheme_chars`). -/
def isSchemeChar (c : Char) : Bool :=
  c.isAlpha || c.isDigit || c = '+' || c = '-' || c = '.'

/-- Split a leading `scheme:` when the text before the first colon is a
nonempty run of scheme characters starting with an ASCII letter (CPython
`urlsplit`); returns `(scheme, rest after the colon)`. -/
def schemeSplitAux : List Char → List Char → Option (List Char × List Char)
  | [], _ => none
  | c :: rest, acc =>
    if c = ':' then if acc = [] then none else some (acc.reverse, rest)
    else if isSchemeChar c then schemeSplitAux rest (c :: acc)
    else none

/-- Leading scheme split, requiring the first character to be a letter. -/
def schemeSplitL (l : List Char) : Option (List Char × List Char) :=
  match l with
  | c :: _ => if c.isAlpha then schemeSplitAux l [] else none
  | [] => none

/-- `urlparse(u).scheme` (lowercased, empty when absent). -/
def urlparseScheme (s : String) : String :=
  match schemeSplitL s.toList with
  | some (sch, _) => ⟨sch.map pyLowerChar⟩
  | none => ""

/-- The part of a URL after its scheme (the URL itself when schemeless). -/
def afterScheme (l : List Char) : List Char :=
  match schemeSplitL l with
  | some (_, rest) => rest
  | none => l

/-- `urlparse(u).netloc`: present only after a leading `//`, running to
the first `/`, `?` or `#`. -/
def urlparseNetloc (s : String) : String :=
  match afterScheme s.toList with
  | '/' :: '/' :: r => ⟨r.takeWhile (fun c => c ≠ '/' && c ≠ '?' && c ≠ '#')⟩
  | _ => ""

/-- `urlparse(u).path` (ignoring the rare `;params` split): what remains
after scheme and netloc, up to the first `?` or `#`. -/
def urlparsePath (s : String) : String :=
  let rest := afterScheme s.toList
  let rest := match rest with
    | '/' :: '/' :: r => r.dropWhile (fun c => c ≠ '/' && c ≠ '?' && c ≠ '#')
    | _ => rest
  ⟨rest.takeWhile (fun c => c ≠ '?' && c ≠ '#')⟩

/-- `f"{urlparse(u).scheme}://{urlparse(u).netloc}"` — the `base_root`
each crawler builds from its category URL. -/
def baseRootOf (s : String) : String :=
  urlparseScheme s ++ "://" ++ urlparseNetloc s

/-- `urllib.parse.urljoin(base, url)` for the reference shapes the
crawlers produce: an absolute `url` (own scheme) wins; `//host/...`
inherits the base's scheme; `/path` is resolved against the base's root;
any other nonempty reference is appended to the base root (faithful for
the `scheme://host` bases the crawlers pass; no dot-segment
normalisation). -/
def urljoinModel (base url : String) : String :=
  if url = "" then base
  else if (schemeSplitL url.toList).isSome then url
  else if isPrefixL "//".toList url.toList then urlparseScheme base ++ ":" ++ url
  else if isPrefixL "/".toList url.toList then baseRootOf base ++ url
  else baseRootOf base ++ "/" ++ url

/-! ## Per-site detail-URL patterns (chotot and oto) -/

/-- Tail of the chotot detail patterns after `mua-ban-oto-`: a nonempty
slash-free segment, `/`, a nonempty digit run, `.htm`, then end or `?`.
(`[^/]+` cannot cross the `/`, and digits cannot include `.`, so the
backtracking is deterministic.) -/
def chototDetailTail (r : List Char) : Bool :=
  let seg := r.takeWhile (· ≠ '/')
  if seg = [] then false else
  match r.drop seg.length with
  | '/' :: r2 =>
    let ds := r2.takeWhile pyIsDigit
    if ds = [] then false else
    (match stripPrefixCI ".htm".toList (r2.drop ds.length) with
     | some rest => rest = [] || rest.head? = some '?'
     | none => false)
  | _ => false

/-- `DETAIL_REL_RE = ^/mua-ban-oto-[^/]+/\d+\.htm(?:$|\?)` with `re.I`. -/
def chototRelMatch (l : List Char) : Bool :=
  match stripPrefixCI "/mua-ban-oto-".toList l with
  | some r => chototDetailTail r
  | none => false

/-- `DETAIL_FULL_RE = ^https?://(?:www\.)?xe\.chotot\.com/mua-ban-oto-[^/]+/\d+\.htm(?:$|\?)`
with `re.I`; both branches of the optional `www.` are tried. -/
def chototFullMatch (l : List Char) : Bool :=
  match stripPrefixCI "http".toList l with
  | none => false
  | some r0 =>
    let r1 := match stripPrefixCI "s".toList r0 with
      | some r => r
      | none => r0
    match stripPrefixCI "://".toList r1 with
    | none => false
    | some r2 =>
      let hostTail := fun (h : List Char) =>
        match stripPrefixCI "xe.chotot.com/mua-ban-oto-".toList h with
        | some r3 => chototDetailTail r3
        | none => false
      (match stripPrefixCI "www.".toList r2 with
       | some r3 => hostTail r3
       | none => false) || hostTail r2

/-- Tail of the oto detail patterns after a slash: `mua-ban-xe-`, a
nonempty slash-free segment, `/`, then at least one character (`.+`
requires its first character to be a non-newline). -/
def otoAfterSlash (r : List Char) : Bool :=
  match stripPrefixCI "mua-ban-xe-".toList r with
  | none => false
  | some r1 =>
    let seg := r1.takeWhile (· ≠ '/')
    if seg = [] then false else
    match r1.drop seg.length with
    | '/' :: c :: _ => c ≠ '\n'
    | _ => false

/-- `DETAIL_HREF_RE = ^/mua-ban-xe-[^/]+/.+` with `re.I`. -/
def otoRelMatch (l : List Char) : Bool :=
  match l with
  | '/' :: r => otoAfterSlash r
  | _ => false

/-- `DETAIL_FULLURL_RE = ^https?://[^/]+/mua-ban-xe-[^/]+/.+` with `re.I`. -/
def otoFullMatch (l : List Char) : Bool :=
  match stripPrefixCI "http".toList l with
  | none => false
  | some r0 =>
    let r1 := match stripPrefixCI "s".toList r0 with
      | some r => r
      | none => r0
    match stripPrefixCI "://".toList r1 with
    | none => false
    | some r2 =>
      let host := r2.takeWhile (· ≠ '/')
      if host = [] then false else
      match r2.drop host.length with
      | '/' :: r3 => otoAfterSlash r3
      | _ => false

/-! ## Python `dict` model -/

/-- Python `dict` assignment `kv[k] = v` on an insertion-ordered
association list: updating an existing key keeps its position,
a new key is appended at the end. -/
def dictInsert {β : Type} : List (String × β) → String → β → List (String × β)
  | [], k, v => [(k, v)]
  | (k', v') :: rest, k, v =>
    if k' = k then (k, v) :: rest else (k', v') :: dictInsert rest k v

/-- Python `kv.get(k)` / `k in kv` (keys are unique by construction). -/
def dictGet {β : Type} : List (String × β) → String → Option β
  | [], _ => none
  | (k', v) :: rest, k => if k' = k then some v else dictGet rest k

/-! ## bonbanh: `parse_key_values_from_section` -/

/-- The `while` loop of `parse_key_values_from_section` over the
stripped nonempty lines: a line ending in `:` names a key whose value is
the next line when that line has no colon or contains a digit (the loop
then skips it); a line containing `:` elsewhere is split at the first
colon; any other line is skipped (`pass`). -/
def pkvGo : List (List Char) → List (String × String) → List (String × String)
  | [], kv => kv
  | [line], kv =>
    if line.getLast? = some ':' then
      dictInsert kv ⟨pyStripL (rstripChar ':' line)⟩ ""
    else if line.contains ':' then
      let (k, v) := splitFirstL ':' line
      dictInsert kv ⟨pyStripL k⟩ ⟨pyStripL (v.getD [])⟩
    else kv
  | line :: next :: rest2, kv =>
    if line.getLast? = some ':' then
      let key : String := ⟨pyStripL (rstripChar ':' line)⟩
      if !next.contains ':' || next.any pyIsDigit then
        pkvGo rest2 (dictInsert kv key ⟨next⟩)
      else
        pkvGo (next :: rest2) (dictInsert kv key "")
    else if line.contains ':' then
      let (k, v) := splitFirstL ':' line
      pkvGo (next :: rest2) (dictInsert kv ⟨pyStripL k⟩ ⟨pyStripL (v.getD [])⟩)
    else
      pkvGo (next :: rest2) kv

/-- `parse_key_values_from_section(text)` of `bonbanh_crawler.py` (the
`BTL01` copy is identical up to an explicit `pass`). -/
def parseKeyValuesFromSection (text : String) : List (String × String) :=
  pkvGo (pyLinesStrippedL text.toList) []

/-! ## bonbanh: `parse_listing_page` -/

/-- The result record of `bonbanh_crawler.py`'s `parse_listing_page`
(the seller-contact block, a total computation independent of every
claim, is elided; the image block is commented out in the source). -/
structure ListingRecord where
  url : String
  id : Option String
  title : String
  price : Option String
  posted_date : Option String
  specs : List (String × String)
  description : String
deriving DecidableEq, Repr

/-- The spec-section slice shared by both bonbanh extractors: from
`"Thông số kỹ thuật"` to the nearest of the three end markers found
after it, else a 2000-character cap; parsed with
`parse_key_values_from_section` when the marker occurs. -/
def bonbanhSpecs (text : String) : List (String × String) :=
  match findSubL "Thông số kỹ thuật".toList text.toList with
  | none => []
  | some start =>
    let ends := (["Thông tin mô tả", "Liên hệ người bán", "Liên hệ"].filterMap
      fun m => findSubFromL m.toList text.toList (start + 1))
    let stop := match ends.min? with
      | some e => e
      | none => start + 2000
    let specText := sliceL text.toList start stop
    if specText = [] then [] else pkvGo (pyLinesStrippedL specText) []

/-- The description slice of `parse_listing_page`: from
`"Thông tin mô tả"` to `"Liên hệ người bán"` (else an 800-character
cap), with the header removed and whitespace collapsed. -/
def bonbanhDescription (text : String) : String :=
  let l := text.toList
  match findSubL "Thông tin mô tả".toList l with
  | none => ""
  | some s =>
    let stop := match findSubFromL "Liên hệ người bán".toList l (s + 1) with
      | some e => e
      | none => s + 800
    ⟨pyStripL (collapseNlTabAux (pyStripL
        (removeAllL "Thông tin mô tả".toList (sliceL l s stop))) false)⟩

/-- `parse_listing_page(html, url)` of `bonbanh_crawler.py`, over the
linearised body text `text = soup.get_text("\n")` and the first
`h1`/`h2` heading text `rawTitle` (the two values the function reads
from the markup).  Every fallible regex lookup is guarded in the source,
so the function is total: each absent signal degrades to `none`/empty. -/
def parseListingPage (text rawTitle url : String) : ListingRecord :=
  let title := pyStrip (collapseNlTab rawTitle)
  let listingId := match searchMaTin text with
    | some d => some d
    | none => trailingId url
  { url := url
    id := listingId
    title := title
    price := searchPrice (title ++ "\n" ++ text)
    posted_date := searchDate text
    specs := bonbanhSpecs text
    description := bonbanhDescription text }

/-! ## BTL01 bonbanh: `parse_listing_page` -/

/-- The result record of the `BTL01` variant (images, a pure regex
filter over `img` attributes, are independent of every claim and
elided). -/
structure BTLListingRecord where
  url : String
  id : String
  title : String
  price : Option String
  posted_date : Option String
  specs : List (String × String)
deriving DecidableEq, Repr

/-- `parse_listing_page(html, url)` of `BTL01/bonbanh.com/crawler.py`.
Unlike the single-file variant, the listing id falls back to
`re.search(r"-([0-9]{5,10})$", url).group(1)` with no `None` guard:
when neither the `Mã tin` label nor a trailing 5–10 digit segment is
present this is `None.group(1)`, an `AttributeError`, modelled as
`Except.error`. -/
def parseListingPageBTL (text rawTitle url : String) :
    Except String BTLListingRecord :=
  let raw := pyStrip (collapseNlTab rawTitle)
  let parts := splitFirstL '-' raw.toList
  let title : String := ⟨joinSingleSpaces (pyStripL parts.1)⟩
  let price : Option String := parts.2.map (fun p => ⟨pyStripL p⟩)
  let idOpt := match searchMaTin text with
    | some d => some d
    | none => trailingId url
  match idOpt with
  | none => .error "AttributeError: NoneType object has no attribute group"
  | some listingId =>
    .ok { url := url
          id := listingId
          title := title
          price := price
          posted_date := searchDate text
          specs := bonbanhSpecs text }

/-! ## chotot: `parse_text_block` -/

/-- A Python value stored in the chotot spec dict: the key/value
strategies store strings, the overflow bucket a list of lines. -/
inductive PyVal where
  | str : String → PyVal
  | strList : List String → PyVal
deriving DecidableEq, Repr

/-- The known spec labels matched at line start (`known_keys`,
including the source's duplicate entry). -/
def chototKnownKeys : List String :=
  ["Hãng", "Dòng xe", "Năm sản xuất", "Hộp số", "Nhiên liệu", "Kiểu dáng",
   "Số chỗ", "Số Km", "Số Km đã đi", "Số Km đã đi", "Xuất xứ", "Tình trạng",
   "Số đời chủ", "Màu ngoại thất", "Màu nội thất"]

/-- Strategy 1: `":" in ln` and both halves of `ln.split(":", 1)`
nonempty after stripping. -/
def colonStrategy (ln : List Char) : Option (String × String) :=
  if ln.contains ':' then
    let (k, v) := splitFirstL ':' ln
    let k := pyStripL k
    let v := pyStripL (v.getD [])
    if k ≠ [] && v ≠ [] then some (⟨k⟩, ⟨v⟩) else none
  else none

/-- Strategy 2: `ln.lower().startswith(k.lower())` for the first known
key; the value is the rest with `.strip()`, `.lstrip(":")`, `.strip()`. -/
def knownKeyStrategy (ln : List Char) : Option (String × String) :=
  chototKnownKeys.findSome? fun k =>
    if isPrefixCI k.toList ln then
      some (k, ⟨pyStripL (lstripChar ':' (pyStripL (ln.drop k.toList.length)))⟩)
    else none

/-- Index of the first position `i ≥ 1` at which two consecutive
whitespace characters start. -/
def firstDoubleWs : List Char → Nat → Option Nat
  | a :: b :: rest, i =>
    if i ≥ 1 && pyIsSpace a && pyIsSpace b then some i
    else firstDoubleWs (b :: rest) (i + 1)
  | _, _ => none

/-- Strategy 3: `re.match(r"^(.+?)\s{2,}(.+)$", ln)`.  The lazy head
group ends at the first double-whitespace position `i ≥ 1`; the
`\s{2,}` run is then maximal, backing off one character when it would
otherwise swallow the end of the line (`.` also matches whitespace). -/
def twoSpaceStrategy (ln : List Char) : Option (String × String) :=
  match firstDoubleWs ln 0 with
  | none => none
  | some i =>
    let runLen := ((ln.drop i).takeWhile pyIsSpace).length
    if i + runLen < ln.length then
      some (⟨pyStripL (ln.take i)⟩, ⟨pyStripL (ln.drop (i + runLen))⟩)
    else if ln.length - i ≥ 3 then
      some (⟨pyStripL (ln.take i)⟩, ⟨pyStripL (ln.drop (ln.length - 1))⟩)
    else none

/-- Strategy 4: `re.match(r"^(.+?)\s+([^\s]+)$", ln)` with both stripped
groups at most 50 characters: the tail group is forced to be the maximal
trailing non-whitespace run, preceded by whitespace, preceded by a
nonempty head. -/
def lastTokenStrategy (ln : List Char) : Option (String × String) :=
  let r := ln.reverse
  let vv := r.takeWhile (fun c => !pyIsSpace c)
  if vv = [] then none else
  let r2 := r.drop vv.length
  let ws := r2.takeWhile pyIsSpace
  if ws = [] then none else
  let kkRaw := (r2.drop ws.length).reverse
  if kkRaw = [] then none else
  let kk := pyStripL kkRaw
  let v := pyStripL vv.reverse
  if kk.length ≤ 50 && v.length ≤ 50 then some (⟨kk⟩, ⟨v⟩) else none

/-- The per-line key/value extraction of `parse_text_block`: the four
strategies in the source's order; `none` means the line falls through to
the overflow bucket. -/
def lineKV (ln : List Char) : Option (String × String) :=
  colonStrategy ln <|> knownKeyStrategy ln <|> twoSpaceStrategy ln <|>
    lastTokenStrategy ln

/-- The overflow-bucket key. -/
def bucketKey : String := "Thông số khác"

/-- One line of `parse_text_block`'s loop.  An unmatched line runs
`kv.setdefault("Thông số khác", []).append(ln)`: if a strategy earlier
stored a *string* under that key, `.append` on a `str` raises
`AttributeError`, modelled as `Except.error`. -/
def tbStep (kv : List (String × PyVal)) (ln : String) :
    Except Unit (List (String × PyVal)) :=
  match lineKV ln.toList with
  | some (k, v) => .ok (dictInsert kv k (.str v))
  | none =>
    match dictGet kv bucketKey with
    | none => .ok (kv ++ [(bucketKey, .strList [ln])])
    | some (.strList l) => .ok (dictInsert kv bucketKey (.strList (l ++ [ln])))
    | some (.str _) => .error ()

/-- The final `"; ".join` of the overflow bucket.  When the bucket holds
a list it is joined with `"; "`; when a strategy stored a string there
(and no unmatched line followed), Python joins the *characters* of that
string. -/
def tbFinish (kv : List (String × PyVal)) : List (String × PyVal) :=
  match dictGet kv bucketKey with
  | some (.strList l) => dictInsert kv bucketKey (.str (String.intercalate "; " l))
  | some (.str s) =>
    dictInsert kv bucketKey
      (.str (String.intercalate "; " (s.toList.map (⟨[·]⟩))))
  | none => kv

/-- `parse_text_block(block_text)` of `xe.chotot.com/crawler.py`. -/
def parseTextBlock (blockText : String) : Except Unit (List (String × PyVal)) :=
  match (pyLinesStripped blockText).foldlM tbStep [] with
  | .error e => .error e
  | .ok kv => .ok (tbFinish kv)

/-! ## bonbanh: `extract_listing_links_from_category` -/

/-- Add to a Python `set` modelled as a duplicate-free list (membership
is what the code observes; `sorted()` later canonicalises the order). -/
def setAdd (l : List String) (x : String) : List String :=
  if x ∈ l then l else l ++ [x]

/-- The filter of `extract_listing_links_from_category` on one anchor
`href`: skip falsy hrefs, strip, skip fragment-only / `javascript:` /
`mailto:` targets, then require the bonbanh detail pattern to match the
href's parsed path (the href itself when the path is empty). -/
def bonbanhAccepts (href : String) : Bool :=
  if href = "" then false else
  let s := pyStrip href
  let sl := s.toList
  if isPrefixL "#".toList sl || isPrefixCI "javascript:".toList sl ||
      isPrefixCI "mailto:".toList sl then false
  else
    let p := urlparsePath s
    pattSearch (if p = "" then sl else p.toList)

/-- The URL recorded for an accepted href:
`urljoin(base_url, href).split("?")[0]`. -/
def bonbanhCanonical (baseUrl href : String) : String :=
  stripQuery (urljoinModel baseUrl (pyStrip href))

/-- One anchor of the bonbanh harvester loop: accepted hrefs contribute
their canonical URL to the set. -/
def bonbanhStep (baseUrl : String) (urls : List String) (h : String) : List String :=
  if bonbanhAccepts h then setAdd urls (bonbanhCanonical baseUrl h) else urls

/-- `extract_listing_links_from_category(html, base_url)`, over the list
of anchor `href` attributes BeautifulSoup yields for the markup: the
accepted hrefs' canonical URLs are accumulated into a set and returned
sorted (`sorted(urls)`; Lean's `String` order is the same code-point
lexicographic order Python uses). -/
def extractListingLinks (hrefs : List String) (baseUrl : String) : List String :=
  List.insertionSort (· ≤ ·) (hrefs.foldl (bonbanhStep baseUrl) [])

/-! ## BTL01 bonbanh: `fetch_with_retry` -/

/-- What one attempt of `session.get` produces: a transport exception or
an HTTP status code. -/
inductive AttemptOutcome where
  | exc : AttemptOutcome
  | status : ℕ → AttemptOutcome
deriving DecidableEq, Repr

/-- The final outcome of `fetch_with_retry` together with the sleeps it
performed: `ok (attempt, status)` when the response of that attempt is
returned, `error` for the final `raise` after `max_retries` attempts.
Backoff durations are naturals: with the default `backoff_base = 2.0`
every wait the code computes is an integer-valued float. -/
structure FetchTrace where
  outcome : Except Unit (ℕ × ℕ)
  sleeps : List ℕ
deriving Repr

/-- The attempt loop of `fetch_with_retry` (attempts are numbered from
1, as in `range(1, max_retries + 1)`); `base` is `backoff_base`. -/
def fwrGo (responses : ℕ → AttemptOutcome) (base : ℕ) :
    (attempt : ℕ) → (fuel : ℕ) → List ℕ → FetchTrace
  | _, 0, sleeps => { outcome := .error (), sleeps := sleeps }
  | attempt, fuel + 1, sleeps =>
    match responses attempt with
    | .exc => fwrGo responses base (attempt + 1) fuel (sleeps ++ [min (base ^ attempt) 60])
    | .status code =>
      if code = 200 then { outcome := .ok (attempt, code), sleeps := sleeps }
      else if code = 404 then { outcome := .ok (attempt, code), sleeps := sleeps }
      else if code = 429 then
        fwrGo responses base (attempt + 1) fuel (sleeps ++ [min (base ^ attempt) 120])
      else if code = 403 || code = 451 then
        fwrGo responses base (attempt + 1) fuel (sleeps ++ [min (base ^ attempt * 2) 300])
      else if 500 ≤ code && code < 600 then
        fwrGo responses base (attempt + 1) fuel (sleeps ++ [min (base ^ attempt) 120])
      else { outcome := .ok (attempt, code), sleeps := sleeps }

/-- `fetch_with_retry(session, url, max_retries, backoff_base)` of
`BTL01/bonbanh.com/crawler.py`, over the per-attempt responses of the
server. -/
def fetchWithRetry (responses : ℕ → AttemptOutcome) (maxRetries : ℕ) (base : ℕ) :
    FetchTrace :=
  fwrGo responses base 1 maxRetries []

/-- The status sequence [429, 429, 200] of the claim, as per-attempt
responses. -/
def responses429 : ℕ → AttemptOutcome :=
  fun a => if a ≤ 2 then .status 429 else .status 200

/-! ## The robots policy oracle -/

/-- What the robots.txt oracle can answer for the target path. -/
inductive RobotsAnswer where
  | allow : RobotsAnswer
  | disallow : RobotsAnswer
  | unreachable : RobotsAnswer
deriving DecidableEq, Repr

/-- The `allowed` Boolean every `check_robots` variant returns: `False`
only on an explicit disallow; an unreachable oracle logs a warning and
returns `True` (fail-open). -/
def checkRobotsAllowed : RobotsAnswer → Bool
  | .disallow => false
  | _ => true

/-! ## chotot: the link-collection loop of `crawl_chotot_category` -/

/-- Configuration of the chotot collection loop: the category's
`scheme://netloc` root, the optional `--stop-link`, and `max_listings`
(`0` models Python's falsy `None`/`0`, i.e. no limit). -/
structure ChototCfg where
  root : String
  stopLink : Option String
  maxListings : ℕ

/-- State of the per-iteration anchor scan. -/
structure ChototInnerSt where
  seen : Finset String
  found : List String
  newLinks : List String
  stop : Bool

/-- The candidate decision for one chotot anchor: skip empty hrefs;
resolve the query-stripped href against the root; require a detail
pattern (the relative pattern on the raw href, the full pattern on the
resolved URL); canonicalise with `rstrip("/")`. -/
def chototCandidate (cfg : ChototCfg) (href : String) : Option String :=
  if href = "" then none
  else
    let full := urljoinModel cfg.root (stripQuery href)
    if chototRelMatch href.toList || chototFullMatch full.toList then
      some (rstripSlashes full)
    else none

/-- The inner `break` condition: the freshly appended link equals the
stop link (directly or query-stripped). -/
def chototStopHit (cfg : ChototCfg) (canonical : String) : Bool :=
  match cfg.stopLink with
  | some sl => canonical = sl || stripQuery canonical = sl
  | none => false

/-- One anchor of the chotot scan: append the candidate only when it is
not in `seen`; `break` (via the `stop` flag, necessarily `false` on
entry here) when the appended link is the stop link. -/
def chototAnchor (cfg : ChototCfg) (st : ChototInnerSt) (href : String) :
    ChototInnerSt :=
  if st.stop then st
  else
    match chototCandidate cfg href with
    | none => st
    | some canonical =>
      if canonical ∈ st.seen then st
      else
        { seen := insert canonical st.seen
          found := st.found ++ [canonical]
          newLinks := st.newLinks ++ [canonical]
          stop := chototStopHit cfg canonical }

/-- State of the outer scroll-iteration loop. -/
structure ChototOuterSt where
  seen : Finset String
  found : List String
  noNew : ℕ
  done : Bool

/-- One scroll iteration of `crawl_chotot_category`: harvest the
anchors, update the consecutive-no-new-links counter, then apply the
source's `break` conditions in order (stop-link substring check on the
new links, `max_listings` truncation, three no-new iterations). -/
def chototIter (cfg : ChototCfg) (st : ChototOuterSt) (anchors : List String) :
    ChototOuterSt :=
  if st.done then st
  else
    let inner := anchors.foldl (chototAnchor cfg)
      { seen := st.seen, found := st.found, newLinks := [], stop := false }
    let noNew := if inner.newLinks.isEmpty then st.noNew + 1 else 0
    let stopByLink := match cfg.stopLink with
      | some sl => inner.newLinks.any (fun nl => containsSubS sl nl || containsSubS nl sl)
      | none => false
    let hitMax := !stopByLink && (cfg.maxListings ≠ 0 && cfg.maxListings ≤ inner.found.length)
    { seen := inner.seen
      found := if hitMax then inner.found.take cfg.maxListings else inner.found
      noNew := noNew
      done := stopByLink || hitMax || noNew ≥ 3 }

/-- The whole chotot collection phase over the successive anchor lists
the renderer shows (one list per scroll iteration), including the final
`found_links[:max_listings]`. -/
def chototCollect (cfg : ChototCfg) (pages : List (List String)) : List String :=
  let st := pages.foldl (chototIter cfg)
    { seen := ∅, found := [], noNew := 0, done := false }
  if cfg.maxListings ≠ 0 then st.found.take cfg.maxListings else st.found

/-! ## oto: `crawl_category_playwright` -/

/-- The outcome the crawler observes from one Playwright navigation:
a `PlaywrightTimeoutError`, another exception, or a rendered page
(body text, anchor hrefs matching the selector, raw markup). -/
inductive NavOutcome where
  | timeout : NavOutcome
  | err : NavOutcome
  | page : String → List String → String → NavOutcome

/-- The external world of the oto crawler (the robots oracle's answer is
a separate argument of the crawl, as in the source).  `parse` abstracts
`oto.com.vn`'s `parse_listing_page` (no claim depends on its
definition); `ρ` is its result type. -/
structure OtoWorld (ρ : Type) where
  nav : String → NavOutcome
  parse : String → String → ρ

/-- State of the oto per-page href scan. -/
structure OtoInnerSt where
  seen : Finset String
  found : List String
  stop : Bool

/-- The candidate decision for one oto href (hrefs arrive
query-stripped): resolve against the root; require a detail pattern;
canonicalise by stripping query and trailing slashes. -/
def otoCandidate (root : String) (href : String) : Option String :=
  if otoRelMatch href.toList || otoFullMatch (urljoinModel root href).toList then
    some (rstripSlashes (stripQuery (urljoinModel root href)))
  else none

/-- One href of the oto scan: append the candidate only when it is not
in `seen`; `break` once `max_listings` is reached. -/
def otoHrefStep (root : String) (maxL : ℕ) (st : OtoInnerSt) (href : String) :
    OtoInnerSt :=
  if st.stop then st
  else
    match otoCandidate root href with
    | none => st
    | some canonical =>
      if canonical ∈ st.seen then st
      else
        { seen := insert canonical st.seen
          found := st.found ++ [canonical]
          stop := maxL ≠ 0 && maxL ≤ (st.found ++ [canonical]).length }

/-- `dict.fromkeys(hrefs)`: first-seen-order deduplication. -/
def dedupFirstAux (seen : List String) : List String → List String
  | [] => []
  | x :: rest =>
    if x ∈ seen then dedupFirstAux seen rest
    else x :: dedupFirstAux (x :: seen) rest

/-- `dict.fromkeys(hrefs)`. -/
def dedupFirst (l : List String) : List String := dedupFirstAux [] l

/-- The href-processing block of one oto category page: drop empty
attributes, strip queries, dedup in first-seen order, scan. -/
def otoProcessHrefs (root : String) (maxL : ℕ) (seen : Finset String)
    (found : List String) (hrefs : List String) : OtoInnerSt :=
  (dedupFirst ((hrefs.filter (· ≠ "")).map stripQuery)).foldl
    (otoHrefStep root maxL) { seen := seen, found := found, stop := false }

/-- Handling of one successfully rendered category page: the
no-results marker breaks the page loop; otherwise the hrefs are scanned
and `max_listings` truncates and breaks.  Returns the new seen/found
state and whether to break. -/
def otoHandlePage (root : String) (maxL : ℕ) (seen : Finset String)
    (found : List String) (body : String) (hrefs : List String) :
    Finset String × List String × Bool :=
  if containsSubS "Hiện không có tin rao phù hợp" body then (seen, found, true)
  else
    let st := otoProcessHrefs root maxL seen found hrefs
    if maxL ≠ 0 && maxL ≤ st.found.length then (st.seen, st.found.take maxL, true)
    else (st.seen, st.found, false)

/-- The primary oto page URL: `catUrl` for page 1, else
`catUrl.rstrip("/") + "/p{n}"`. -/
def otoPageUrl (catUrl : String) (page : ℕ) : String :=
  if page = 1 then catUrl else rstripSlashes catUrl ++ "/p" ++ toString page

/-- The alternate oto page URL tried after a timeout:
`catUrl + ("&" if "?" in catUrl else "?") + "page={n}"`. -/
def otoAltUrl (catUrl : String) (page : ℕ) : String :=
  catUrl ++ (if catUrl.toList.contains '?' then "&" else "?") ++
    "page=" ++ toString page

/-- The oto page loop: navigate to the primary URL; on a Playwright
timeout the alternate is tried once; on any other load error the page
is skipped.  Also returns the log of navigation attempts. -/
def otoPageLoop {ρ : Type} (w : OtoWorld ρ) (catUrl root : String) (maxL : ℕ) :
    (page fuel : ℕ) → Finset String → List String → List String →
      List String × List String
  | _, 0, _, found, log => (found, log)
  | page, fuel + 1, seen, found, log =>
    match w.nav (otoPageUrl catUrl page) with
    | .err =>
      otoPageLoop w catUrl root maxL (page + 1) fuel seen found
        (log ++ [otoPageUrl catUrl page])
    | .timeout =>
      match w.nav (otoAltUrl catUrl page) with
      | .page body hrefs _ =>
        match otoHandlePage root maxL seen found body hrefs with
        | (seen2, found2, brk) =>
          if brk then (found2, log ++ [otoPageUrl catUrl page, otoAltUrl catUrl page])
          else otoPageLoop w catUrl root maxL (page + 1) fuel seen2 found2
            (log ++ [otoPageUrl catUrl page, otoAltUrl catUrl page])
      | _ =>
        otoPageLoop w catUrl root maxL (page + 1) fuel seen found
          (log ++ [otoPageUrl catUrl page, otoAltUrl catUrl page])
    | .page body hrefs _ =>
      match otoHandlePage root maxL seen found body hrefs with
      | (seen2, found2, brk) =>
        if brk then (found2, log ++ [otoPageUrl catUrl page])
        else otoPageLoop w catUrl root maxL (page + 1) fuel seen2 found2
          (log ++ [otoPageUrl catUrl page])

/-- One listing of `crawl_detail_links`: navigate, skip on errors or on
the captcha marker in the body text, else extract and append. -/
def otoDetailStep {ρ : Type} (w : OtoWorld ρ) (st : List ρ × List String)
    (link : String) : List ρ × List String :=
  let log := st.2 ++ [link]
  match w.nav link with
  | .page body _ html =>
    if containsSubS "Nhập mã xác nhận" body then (st.1, log)
    else (st.1 ++ [w.parse html link], log)
  | _ => (st.1, log)

/-- `crawl_category_playwright(category_url, pages, max_listings, ...,
check_robots_flag)` of `oto.com.vn/crawler.py`: the robots gate, the
page loop, then `crawl_detail_links` over `found_links[:max_listings]`.
Returns the records and the log of navigation attempts. -/
def otoCrawlCategory {ρ : Type} (robots : RobotsAnswer) (w : OtoWorld ρ)
    (flag : Bool) (catUrl : String) (pages maxL : ℕ) : List ρ × List String :=
  if flag && !checkRobotsAllowed robots then ([], [])
  else
    let (found, log) := otoPageLoop w catUrl (baseRootOf catUrl) maxL 1 pages ∅ [] []
    (found.take maxL).foldl (otoDetailStep w) ([], log)

/-! ## bonbanh: `crawl_category` -/

/-- The external world of `bonbanh_crawler.py`: the HTTP fetch (html
text or a raised exception) and BeautifulSoup's three reads of a
document (anchor hrefs, `get_text("\n")`, first `h1`/`h2`).  The robots
oracle's answer is a separate argument of the crawl, as in the source. -/
structure BonWorld where
  fetch : String → Except Unit String
  anchorsOf : String → List String
  textOf : String → String
  titleOf : String → String

/-- Handling of one fetched category page: extract links, keep the ones
not already in `found_links`; no new links breaks the loop; reaching
`max_listings` truncates and breaks. -/
def bonHandlePage (baseRoot : String) (maxL : ℕ) (found : List String)
    (anchors : List String) : List String × Bool :=
  let links := extractListingLinks anchors baseRoot
  let newLinks := links.filter (· ∉ found)
  if newLinks.isEmpty then (found, true)
  else
    let found2 := found ++ newLinks
    if maxL ≠ 0 && maxL ≤ found2.length then (found2.take maxL, true)
    else (found2, false)

/-- The bonbanh page loop: `base` (page 1) or
`base.rstrip("/") + "/page%2C{n}"`, falling back to the `?page={n}`
template once; both failing breaks the loop.  Also logs every fetch
attempt. -/
def bonPageLoop (w : BonWorld) (baseUrl baseRoot : String) (maxL : ℕ) :
    (page fuel : ℕ) → List String → List String → List String × List String
  | _, 0, found, log => (found, log)
  | page, fuel + 1, found, log =>
    let u1 := if page = 1 then baseUrl
      else rstripSlashes baseUrl ++ "/page%2C" ++ toString page
    let log1 := log ++ [u1]
    match w.fetch u1 with
    | .ok h =>
      let (found2, brk) := bonHandlePage baseRoot maxL found (w.anchorsOf h)
      if brk then (found2, log1)
      else bonPageLoop w baseUrl baseRoot maxL (page + 1) fuel found2 log1
    | .error _ =>
      let u2 := baseUrl ++ (if baseUrl.toList.contains '?' then "&" else "?") ++
        "page=" ++ toString page
      let log2 := log1 ++ [u2]
      match w.fetch u2 with
      | .ok h =>
        let (found2, brk) := bonHandlePage baseRoot maxL found (w.anchorsOf h)
        if brk then (found2, log2)
        else bonPageLoop w baseUrl baseRoot maxL (page + 1) fuel found2 log2
      | .error _ => (found, log2)

/-- One listing URL of the bonbanh crawl loop: fetch (exceptions are
swallowed per URL), parse, read the year as
`int(data["specs"].get("Năm sản xuất", 0))` — the missing key defaults
to the integer `0`, a non-numeric value raises inside the per-URL
handler — and keep the record only when `year ≥ YEAR_NOW - 3`. -/
def bonListingStep (w : BonWorld) (yearNow : ℤ)
    (st : List ListingRecord × List String) (url : String) :
    List ListingRecord × List String :=
  let log := st.2 ++ [url]
  match w.fetch url with
  | .error _ => (st.1, log)
  | .ok html =>
    let data := parseListingPage (w.textOf html) (w.titleOf html) url
    let yearOpt : Option ℤ := match dictGet data.specs "Năm sản xuất" with
      | none => some 0
      | some s => pyInt s
    match yearOpt with
    | none => (st.1, log)
    | some y => if y < yearNow - 3 then (st.1, log) else (st.1 ++ [data], log)

/-- `crawl_category(session, base_category_url, max_pages, max_listings)`
of `bonbanh_crawler.py`.  On a robots disallow the function prints a
warning and executes a bare `return`, i.e. it returns Python `None`
(modelled as `none`) with no fetch attempt; otherwise it returns the
crawled records (`some`).  The second component logs every fetch
attempt. -/
def bonCrawlCategory (robots : RobotsAnswer) (w : BonWorld) (baseUrl : String)
    (maxPages maxL : ℕ) (yearNow : ℤ) : Option (List ListingRecord) × List String :=
  if !checkRobotsAllowed robots then (none, [])
  else
    let (found, log) := bonPageLoop w baseUrl (baseRootOf baseUrl) maxL 1 maxPages [] []
    let (results, log2) := found.foldl (bonListingStep w yearNow) ([], log)
    (some results, log2)

/-! ## Theorems -/

/-- C5: given the detail-section text block
`"Năm sản xuất:\n2023\nHộp số: Tự động"` (a trailing-colon label line, a
bare value line, and a label-colon-value line), the bonbanh spec parser
returns exactly the mapping
`{"Năm sản xuất": "2023", "Hộp số": "Tự động"}`. -/
theorem spec_section_example :
    parseKeyValuesFromSection "Năm sản xuất:\n2023\nHộp số: Tự động" =
      [("Năm sản xuất", "2023"), ("Hộp số", "Tự động")] := by decide

/-- C3: on the status sequence [429, 429, 200] the fetcher returns the
successful response of attempt 3 after exactly two retries, and the two
backoff sleeps are `min(base^attempt, 120)` for attempts 1 and 2 (with
the default `backoff_base = 2`), which are strictly increasing. -/
theorem fetch_retry_429_backoff :
    (fetchWithRetry responses429 6 2).outcome = .ok (3, 200) ∧
    (fetchWithRetry responses429 6 2).sleeps = [min (2 ^ 1) 120, min (2 ^ 2) 120] ∧
    (fetchWithRetry responses429 6 2).sleeps.length = 2 ∧
    List.Chain' (· < ·) (fetchWithRetry responses429 6 2).sleeps := by
  refine ⟨rfl, rfl, rfl, ?_⟩
  rw [show (fetchWithRetry responses429 6 2).sleeps = [2, 4] from rfl]
  exact List.chain'_cons.mpr ⟨by norm_num, List.chain'_singleton _⟩

/-- C1 counterexample: the `BTL01` field extractor raises
(`AttributeError`, from the unguarded `.group(1)` on the URL fallback)
on empty markup with a URL that has no trailing 5–10 digit segment, so
it is not true that every markup/URL yields a record without an
exception. -/
theorem btl_extractor_raises :
    parseListingPageBTL "" "" "x" =
      .error "AttributeError: NoneType object has no attribute group" := rfl

/-- C1 (amended): the single-file bonbanh extractor is total and each
signal that cannot be found degrades individually (null id when neither
the `Mã tin` label nor trailing URL digits exist, null posted date,
null price, empty specs, empty title); the `BTL01` variant returns a
record exactly when one of the two id sources exists, and raises
otherwise. -/
theorem extractor_degrades (text rawTitle url : String) :
    (searchMaTin text = none → trailingId url = none →
      (parseListingPage text rawTitle url).id = none) ∧
    (searchDate text = none → (parseListingPage text rawTitle url).posted_date = none) ∧
    (searchPrice ((parseListingPage text rawTitle url).title ++ "\n" ++ text) = none →
      (parseListingPage text rawTitle url).price = none) ∧
    (findSubL "Thông số kỹ thuật".toList text.toList = none →
      (parseListingPage text rawTitle url).specs = []) ∧
    (parseListingPage text "" url).title = "" ∧
    ((parseListingPageBTL text rawTitle url).isOk ↔
      (searchMaTin text).isSome ∨ (trailingId url).isSome) := by
  refine ⟨?_, ?_, ?_, ?_, ?_, ?_⟩
  · intro h1 h2; simp [parseListingPage, h1, h2]
  · intro h; simp [parseListingPage, h]
  · intro h; simpa [parseListingPage] using h
  · intro h
    show bonbanhSpecs text = []
    unfold bonbanhSpecs
    rw [h]
  · rfl
  · unfold parseListingPageBTL
    cases h1 : searchMaTin text with
    | some d => simp [h1, Except.isOk, Except.toBool]
    | none => cases h2 : trailingId url <;> simp [h1, h2, Except.isOk, Except.toBool]

/-- C1 witness: on empty markup and the digit-free URL `"u"` all five
degradations fire at once and the `BTL01` variant fails. -/
theorem extractor_degrades_witness :
    (parseListingPage "" "" "u").id = none ∧
    (parseListingPage "" "" "u").posted_date = none ∧
    (parseListingPage "" "" "u").price = none ∧
    (parseListingPage "" "" "u").specs = [] ∧
    (parseListingPage "" "" "u").title = "" ∧
    ¬(parseListingPageBTL "" "" "u").isOk = true := by
  have h := extractor_degrades "" "" "u"
  refine ⟨h.1 (by decide) (by decide), h.2.1 (by decide), h.2.2.1 (by decide),
    h.2.2.2.1 (by decide), h.2.2.2.2.1, fun hok => ?_⟩
  rcases h.2.2.2.2.2.mp hok with hs | hs <;> exact absurd hs (by decide)

/-- C8 counterexample: the text `"Mã tin: 1234567"` contains the
substring `"Mã tin: 123456"`, yet extraction yields id `"1234567"`
(the greedy `\d+` capture), not `"123456"` — containment of the label
string is not sufficient. -/
theorem ma_tin_substring_not_sufficient :
    "Mã tin: 1234567" = "Mã tin: 123456" ++ "7" ∧
    (parseListingPage "Mã tin: 1234567" "" "u").id ≠ some "123456" := by
  constructor
  · decide
  · decide

/-- C8 (amended): whenever the leftmost `Mã tin` label match of the body
text captures exactly the digits `123456`, extraction returns
`id = "123456"`, for every URL — in particular the label takes
precedence over the URL's trailing digits. -/
theorem ma_tin_precedence (text rawTitle url : String)
    (h : searchMaTin text = some "123456") :
    (parseListingPage text rawTitle url).id = some "123456" := by
  simp [parseListingPage, h]

/-- C8 witness: the text `"Mã tin: 123456"` with a URL whose trailing
digits are `99999`; the label wins. -/
theorem ma_tin_precedence_witness :
    (parseListingPage "Mã tin: 123456" "" "https://bonbanh.com/xe-a-99999").id =
      some "123456" :=
  ma_tin_precedence _ _ _ (by decide)

/-- C4 counterexample: on a robots disallow, `bonbanh_crawler.py`'s
`crawl_category` executes a bare `return`, i.e. it returns Python `None`
— not an empty result list (while performing zero fetches). -/
theorem robots_disallow_not_empty_list :
    (bonCrawlCategory .disallow
        { fetch := fun _ => .error (), anchorsOf := fun _ => [],
          textOf := fun _ => "", titleOf := fun _ => "" }
        "https://bonbanh.com/oto" 3 200 2026).1 ≠ some [] ∧
    (bonCrawlCategory .disallow
        { fetch := fun _ => .error (), anchorsOf := fun _ => [],
          textOf := fun _ => "", titleOf := fun _ => "" }
        "https://bonbanh.com/oto" 3 200 2026).1 = none := by
  exact ⟨by decide, rfl⟩

/-- C4 (amended): a robots disallow makes the category crawl perform
zero fetch attempts and return no results — `None` for the bonbanh
crawler, an empty list for the oto crawler — for every world, category
URL and budget; and an unreachable oracle is fail-open: both crawls
behave exactly as under an explicit allow. -/
theorem robots_gate (w : BonWorld) (ρ : Type) (w2 : OtoWorld ρ)
    (baseUrl catUrl : String) (maxPages maxL pages maxL2 : ℕ) (yearNow : ℤ) :
    bonCrawlCategory .disallow w baseUrl maxPages maxL yearNow = (none, []) ∧
    otoCrawlCategory .disallow w2 true catUrl pages maxL2 = ([], []) ∧
    bonCrawlCategory .unreachable w baseUrl maxPages maxL yearNow =
      bonCrawlCategory .allow w baseUrl maxPages maxL yearNow ∧
    otoCrawlCategory .unreachable w2 true catUrl pages maxL2 =
      otoCrawlCategory .allow w2 true catUrl pages maxL2 := by
  refine ⟨rfl, rfl, rfl, rfl⟩

/-- The dedup invariant of both link-collection loops: the accumulated
link list is duplicate-free and every accumulated link is in the seen
set. -/
def HarvestInv (seen : Finset String) (found : List String) : Prop :=
  found.Nodup ∧ ∀ u ∈ found, u ∈ seen

theorem harvestInv_append {seen : Finset String} {found : List String} {c : String}
    (h : HarvestInv seen found) (hc : c ∉ seen) :
    HarvestInv (insert c seen) (found ++ [c]) := by
  obtain ⟨hn, hs⟩ := h
  refine ⟨?_, ?_⟩
  · rw [List.nodup_append]
    exact ⟨hn, List.nodup_singleton c, by
      intro a ha hb
      rw [List.mem_singleton] at hb
      exact hc (hb ▸ hs a ha)⟩
  · intro u hu
    rcases List.mem_append.mp hu with hu | hu
    · exact Finset.mem_insert_of_mem (hs u hu)
    · rw [List.mem_singleton] at hu
      exact hu ▸ Finset.mem_insert_self c seen

theorem harvestInv_take {seen : Finset String} {found : List String}
    (h : HarvestInv seen found) (n : ℕ) : HarvestInv seen (found.take n) :=
  ⟨h.1.sublist (List.take_sublist n found),
   fun u hu => h.2 u (List.mem_of_mem_take hu)⟩

/-- One chotot anchor either leaves the seen/found state unchanged or
appends one canonical URL that was not already seen, also inserting it
into the seen set. -/
theorem chototAnchor_cases (cfg : ChototCfg) (st : ChototInnerSt) (a : String) :
    ((chototAnchor cfg st a).seen = st.seen ∧
      (chototAnchor cfg st a).found = st.found) ∨
    ∃ c, c ∉ st.seen ∧ (chototAnchor cfg st a).seen = insert c st.seen ∧
      (chototAnchor cfg st a).found = st.found ++ [c] := by
  cases hst : st.stop with
  | true => left; constructor <;> simp [chototAnchor, hst]
  | false =>
    cases hc : chototCandidate cfg a with
    | none => left; constructor <;> simp [chototAnchor, hst, hc]
    | some canonical =>
      by_cases hmem : canonical ∈ st.seen
      · left; constructor <;> simp [chototAnchor, hst, hc, hmem]
      · exact Or.inr ⟨canonical, hmem,
          by simp [chototAnchor, hst, hc, hmem],
          by simp [chototAnchor, hst, hc, hmem]⟩

theorem chototAnchor_inv (cfg : ChototCfg) (st : ChototInnerSt) (a : String)
    (h : HarvestInv st.seen st.found) :
    HarvestInv (chototAnchor cfg st a).seen (chototAnchor cfg st a).found := by
  rcases chototAnchor_cases cfg st a with ⟨h1, h2⟩ | ⟨c, hc, h1, h2⟩
  · rw [h1, h2]; exact h
  · rw [h1, h2]; exact harvestInv_append h hc

theorem chototAnchor_seen_mono (cfg : ChototCfg) (st : ChototInnerSt) (a : String) :
    st.seen ⊆ (chototAnchor cfg st a).seen := by
  rcases chototAnchor_cases cfg st a with ⟨h1, _⟩ | ⟨c, _, h1, _⟩
  · rw [h1]
  · rw [h1]; exact Finset.subset_insert c st.seen

theorem foldl_chototAnchor_inv (cfg : ChototCfg) (anchors : List String) :
    ∀ st : ChototInnerSt, HarvestInv st.seen st.found →
      HarvestInv (anchors.foldl (chototAnchor cfg) st).seen
        (anchors.foldl (chototAnchor cfg) st).found := by
  induction anchors with
  | nil => intro st h; exact h
  | cons a rest ih =>
    intro st h
    exact ih (chototAnchor cfg st a) (chototAnchor_inv cfg st a h)

theorem chototIter_inv (cfg : ChototCfg) (st : ChototOuterSt) (anchors : List String)
    (h : HarvestInv st.seen st.found) :
    HarvestInv (chototIter cfg st anchors).seen (chototIter cfg st anchors).found := by
  unfold chototIter
  split
  · exact h
  · have hin := foldl_chototAnchor_inv cfg anchors
      { seen := st.seen, found := st.found, newLinks := [], stop := false } h
    simp only []
    split
    · exact harvestInv_take hin cfg.maxListings
    · exact hin

theorem foldl_chototIter_inv (cfg : ChototCfg) (pages : List (List String)) :
    ∀ st : ChototOuterSt, HarvestInv st.seen st.found →
      HarvestInv (pages.foldl (chototIter cfg) st).seen
        (pages.foldl (chototIter cfg) st).found := by
  induction pages with
  | nil => intro st h; exact h
  | cons p rest ih =>
    intro st h
    exact ih (chototIter cfg st p) (chototIter_inv cfg st p h)

theorem chototCollect_nodup (cfg : ChototCfg) (pages : List (List String)) :
    (chototCollect cfg pages).Nodup := by
  unfold chototCollect
  have h := foldl_chototIter_inv cfg pages
    { seen := ∅, found := [], noNew := 0, done := false }
    ⟨List.nodup_nil, by simp⟩
  split
  · exact (harvestInv_take h cfg.maxListings).1
  · exact h.1

/-- One oto href either leaves the seen/found state unchanged or appends
one unseen canonical URL, inserting it into the seen set. -/
theorem otoHrefStep_cases (root : String) (maxL : ℕ) (st : OtoInnerSt) (a : String) :
    ((otoHrefStep root maxL st a).seen = st.seen ∧
      (otoHrefStep root maxL st a).found = st.found) ∨
    ∃ c, otoCandidate root a = some c ∧ c ∉ st.seen ∧
      (otoHrefStep root maxL st a).seen = insert c st.seen ∧
      (otoHrefStep root maxL st a).found = st.found ++ [c] := by
  cases hst : st.stop with
  | true => left; constructor <;> simp [otoHrefStep, hst]
  | false =>
    cases hc : otoCandidate root a with
    | none => left; constructor <;> simp [otoHrefStep, hst, hc]
    | some canonical =>
      by_cases hmem : canonical ∈ st.seen
      · left; constructor <;> simp [otoHrefStep, hst, hc, hmem]
      · exact Or.inr ⟨canonical, rfl, hmem,
          by simp [otoHrefStep, hst, hc, hmem],
          by simp [otoHrefStep, hst, hc, hmem]⟩

theorem otoHrefStep_inv (root : String) (maxL : ℕ) (st : OtoInnerSt) (a : String)
    (h : HarvestInv st.seen st.found) :
    HarvestInv (otoHrefStep root maxL st a).seen (otoHrefStep root maxL st a).found := by
  rcases otoHrefStep_cases root maxL st a with ⟨h1, h2⟩ | ⟨c, _, hc, h1, h2⟩
  · rw [h1, h2]; exact h
  · rw [h1, h2]; exact harvestInv_append h hc

theorem otoHrefStep_seen_mono (root : String) (maxL : ℕ) (st : OtoInnerSt) (a : String) :
    st.seen ⊆ (otoHrefStep root maxL st a).seen := by
  rcases otoHrefStep_cases root maxL st a with ⟨h1, _⟩ | ⟨c, _, _, h1, _⟩
  · rw [h1]
  · rw [h1]; exact Finset.subset_insert c st.seen

theorem foldl_otoHrefStep_inv (root : String) (maxL : ℕ) (l : List String) :
    ∀ st : OtoInnerSt, HarvestInv st.seen st.found →
      HarvestInv ((l.foldl (otoHrefStep root maxL) st).seen)
        ((l.foldl (otoHrefStep root maxL) st).found) := by
  induction l with
  | nil => intro st h; exact h
  | cons a rest ih =>
    intro st h
    exact ih (otoHrefStep root maxL st a) (otoHrefStep_inv root maxL st a h)

theorem otoProcessHrefs_inv (root : String) (maxL : ℕ) (seen : Finset String)
    (found : List String) (hrefs : List String) (h : HarvestInv seen found) :
    HarvestInv (otoProcessHrefs root maxL seen found hrefs).seen
      (otoProcessHrefs root maxL seen found hrefs).found :=
  foldl_otoHrefStep_inv root maxL _ { seen := seen, found := found, stop := false } h

theorem otoHandlePage_inv (root : String) (maxL : ℕ) (seen : Finset String)
    (found : List String) (body : String) (hrefs : List String)
    (h : HarvestInv seen found) :
    HarvestInv (otoHandlePage root maxL seen found body hrefs).1
      (otoHandlePage root maxL seen found body hrefs).2.1 := by
  unfold otoHandlePage
  split
  · exact h
  · have h2 := otoProcessHrefs_inv root maxL seen found hrefs h
    simp only []
    split
    · exact harvestInv_take h2 maxL
    · exact h2

theorem otoPageLoop_nodup (ρ : Type) (w : OtoWorld ρ) (catUrl root : String)
    (maxL : ℕ) (fuel : ℕ) :
    ∀ (page : ℕ) (seen : Finset String) (found log : List String),
      HarvestInv seen found →
      (otoPageLoop w catUrl root maxL page fuel seen found log).1.Nodup := by
  induction fuel with
  | zero => intro page seen found log h; exact h.1
  | succ n ih =>
    intro page seen found log h
    unfold otoPageLoop
    cases w.nav (otoPageUrl catUrl page) with
    | err => exact ih (page + 1) seen found _ h
    | timeout =>
      cases w.nav (otoAltUrl catUrl page) with
      | timeout => exact ih (page + 1) seen found _ h
      | err => exact ih (page + 1) seen found _ h
      | page body hrefs html =>
        dsimp only
        have h2 := otoHandlePage_inv root maxL seen found body hrefs h
        rcases heq : otoHandlePage root maxL seen found body hrefs with ⟨s2, f2, brk⟩
        rw [heq] at h2
        cases brk with
        | true => exact h2.1
        | false => exact ih (page + 1) s2 f2 _ h2
    | page body hrefs html =>
      dsimp only
      have h2 := otoHandlePage_inv root maxL seen found body hrefs h
      rcases heq : otoHandlePage root maxL seen found body hrefs with ⟨s2, f2, brk⟩
      rw [heq] at h2
      cases brk with
      | true => exact h2.1
      | false => exact ih (page + 1) s2 f2 _ h2

/-- C2: over every crawl (any world, configuration and page budget) the
accumulated detail-link list contains no canonical URL twice — in the
chotot collection loop and in the oto page loop — and the seen set only
grows at every single anchor step of either loop, so each candidate
link is enqueued for detail fetching at most once. -/
theorem harvest_dedup :
    (∀ (cfg : ChototCfg) (pages : List (List String)),
      (chototCollect cfg pages).Nodup) ∧
    (∀ (ρ : Type) (w : OtoWorld ρ) (catUrl root : String) (maxL fuel : ℕ),
      (otoPageLoop w catUrl root maxL 1 fuel ∅ [] []).1.Nodup) ∧
    (∀ (cfg : ChototCfg) (st : ChototInnerSt) (a : String),
      st.seen ⊆ (chototAnchor cfg st a).seen) ∧
    (∀ (root : String) (maxL : ℕ) (st : OtoInnerSt) (a : String),
      st.seen ⊆ (otoHrefStep root maxL st a).seen) :=
  ⟨chototCollect_nodup,
   fun ρ w catUrl root maxL fuel =>
     otoPageLoop_nodup ρ w catUrl root maxL fuel 1 ∅ [] []
       ⟨List.nodup_nil, by simp⟩,
   chototAnchor_seen_mono,
   otoHrefStep_seen_mono⟩

theorem mem_setAdd {l : List String} {x u : String} :
    u ∈ setAdd l x ↔ u ∈ l ∨ u = x := by
  unfold setAdd
  split
  · next hx => exact ⟨Or.inl, fun h => h.elim id (fun he => he ▸ hx)⟩
  · simp [List.mem_append]

theorem setAdd_nodup {l : List String} {x : String} (h : l.Nodup) :
    (setAdd l x).Nodup := by
  unfold setAdd
  split
  · exact h
  · next hx =>
    rw [List.nodup_append]
    exact ⟨h, List.nodup_singleton x, fun a ha hb => by
      rw [List.mem_singleton] at hb
      exact hx (hb ▸ ha)⟩

theorem foldl_bonbanhStep_mem (baseUrl : String) (hrefs : List String) :
    ∀ (acc : List String) (u : String),
      u ∈ hrefs.foldl (bonbanhStep baseUrl) acc ↔
        u ∈ acc ∨ ∃ h, h ∈ hrefs ∧ bonbanhAccepts h = true ∧
          u = bonbanhCanonical baseUrl h := by
  induction hrefs with
  | nil => intro acc u; simp
  | cons a rest ih =>
    intro acc u
    rw [List.foldl_cons, ih]
    unfold bonbanhStep
    by_cases ha : bonbanhAccepts a = true
    · rw [if_pos ha, mem_setAdd]
      constructor
      · rintro ((hu | rfl) | ⟨h, hh, hacc, rfl⟩)
        · exact Or.inl hu
        · exact Or.inr ⟨a, List.mem_cons_self a rest, ha, rfl⟩
        · exact Or.inr ⟨h, List.mem_cons_of_mem a hh, hacc, rfl⟩
      · rintro (hu | ⟨h, hh, hacc, rfl⟩)
        · exact Or.inl (Or.inl hu)
        · rcases List.mem_cons.mp hh with rfl | hh
          · exact Or.inl (Or.inr rfl)
          · exact Or.inr ⟨h, hh, hacc, rfl⟩
    · rw [if_neg ha]
      constructor
      · rintro (hu | ⟨h, hh, hacc, rfl⟩)
        · exact Or.inl hu
        · exact Or.inr ⟨h, List.mem_cons_of_mem a hh, hacc, rfl⟩
      · rintro (hu | ⟨h, hh, hacc, rfl⟩)
        · exact Or.inl hu
        · rcases List.mem_cons.mp hh with rfl | hh
          · exact absurd hacc ha
          · exact Or.inr ⟨h, hh, hacc, rfl⟩

theorem foldl_bonbanhStep_nodup (baseUrl : String) (hrefs : List String) :
    ∀ acc : List String, acc.Nodup → (hrefs.foldl (bonbanhStep baseUrl) acc).Nodup := by
  induction hrefs with
  | nil => intro acc h; exact h
  | cons a rest ih =>
    intro acc h
    rw [List.foldl_cons]
    apply ih
    unfold bonbanhStep
    split
    · exact setAdd_nodup h
    · exact h

theorem splitFirstAux_not_mem (sep : Char) :
    ∀ (l acc : List Char), sep ∉ acc → sep ∉ (splitFirstAux sep l acc).1 := by
  intro l
  induction l with
  | nil =>
    intro acc h
    exact fun hmem => h (List.mem_reverse.mp hmem)
  | cons c rest ih =>
    intro acc h
    unfold splitFirstAux
    split
    · exact fun hmem => h (List.mem_reverse.mp hmem)
    · next hne =>
      exact ih (c :: acc) (fun hmem => by
        rcases List.mem_cons.mp hmem with heq | hmem2
        · exact hne heq.symm
        · exact h hmem2)

theorem stripQuery_not_mem (s : String) : '?' ∉ (stripQuery s).toList :=
  splitFirstAux_not_mem '?' s.toList [] (by simp)

theorem rstripChar_subset (c : Char) (l : List Char) {u : Char}
    (hu : u ∈ rstripChar c l) : u ∈ l := by
  unfold rstripChar at hu
  rw [List.mem_reverse] at hu
  exact List.mem_reverse.mp ((List.dropWhile_sublist _).subset hu)

theorem head_dropWhile_false (p : Char → Bool) :
    ∀ (l : List Char) (a : Char), (l.dropWhile p).head? = some a → p a = false := by
  intro l
  induction l with
  | nil => intro a h; simp [List.dropWhile] at h
  | cons x rest ih =>
    intro a h
    by_cases hp : p x = true
    · rw [List.dropWhile_cons_of_pos hp] at h
      exact ih a h
    · rw [List.dropWhile_cons_of_neg hp] at h
      rw [List.head?_cons, Option.some_inj] at h
      subst h
      simpa using hp

theorem rstripChar_getLast_ne (c : Char) (l : List Char) :
    (rstripChar c l).getLast? ≠ some c := by
  unfold rstripChar
  rw [List.getLast?_reverse]
  intro h
  have := head_dropWhile_false (fun x => x = c) l.reverse c h
  simp at this

theorem otoCandidate_clean (root a c : String)
    (h : otoCandidate root a = some c) :
    c.toList.getLast? ≠ some '/' ∧ '?' ∉ c.toList := by
  unfold otoCandidate at h
  split at h
  · rw [Option.some_inj] at h
    subst h
    exact ⟨rstripChar_getLast_ne '/' _,
      fun hm => stripQuery_not_mem _ (rstripChar_subset '/' _ hm)⟩
  · exact absurd h (by simp)

/-- C7 counterexample: the bonbanh harvester does not strip the
trailing slash — the anchor `/xe-abc-12345/` is kept verbatim (query
stripped only), so the claimed trailing-slash canonicalisation fails. -/
theorem bonbanh_keeps_trailing_slash :
    extractListingLinks ["/xe-abc-12345/"] "https://bonbanh.com" =
      ["https://bonbanh.com/xe-abc-12345/"] ∧
    "https://bonbanh.com/xe-abc-12345/".toList.getLast? = some '/' := by
  constructor
  · decide
  · decide

/-- C7 (amended): the bonbanh harvester discards fragment-only,
`javascript:` and `mailto:` hrefs, keeps exactly the hrefs whose parsed
path matches the site's detail pattern, and canonicalises each kept
link by resolving it against the base URL and stripping the query
string (never a `?` in an output; the trailing slash is kept); the
oto loop canonicalises by stripping both the query string and trailing
slashes. -/
theorem harvester_canonicalization (hrefs : List String) (baseUrl u : String) :
    (u ∈ extractListingLinks hrefs baseUrl ↔
      ∃ h, h ∈ hrefs ∧ bonbanhAccepts h = true ∧
        u = bonbanhCanonical baseUrl h) ∧
    (u ∈ extractListingLinks hrefs baseUrl → '?' ∉ u.toList) ∧
    (∀ (root : String) (maxL : ℕ) (st : OtoInnerSt) (a : String),
      (otoHrefStep root maxL st a).found = st.found ∨
      ∃ c, (otoHrefStep root maxL st a).found = st.found ++ [c] ∧
        c.toList.getLast? ≠ some '/' ∧ '?' ∉ c.toList) := by
  have hmem : u ∈ extractListingLinks hrefs baseUrl ↔
      ∃ h, h ∈ hrefs ∧ bonbanhAccepts h = true ∧ u = bonbanhCanonical baseUrl h := by
    unfold extractListingLinks
    rw [List.mem_insertionSort]
    rw [foldl_bonbanhStep_mem baseUrl hrefs []]
    simp
  refine ⟨hmem, ?_, ?_⟩
  · intro hu
    rcases hmem.mp hu with ⟨h, _, _, rfl⟩
    exact stripQuery_not_mem _
  · intro root maxL st a
    rcases otoHrefStep_cases root maxL st a with ⟨_, h2⟩ | ⟨c, hc, _, _, h2⟩
    · exact Or.inl h2
    · exact Or.inr ⟨c, h2, otoCandidate_clean root a c hc⟩

/-- C7 witness: the anchor `/xe-abc-12345?x=1` is kept, resolved
against the base and stripped of its query string. -/
theorem harvester_canonicalization_witness :
    "https://bonbanh.com/xe-abc-12345" ∈
      extractListingLinks ["/xe-abc-12345?x=1"] "https://bonbanh.com" ∧
    '?' ∉ "https://bonbanh.com/xe-abc-12345".toList := by
  have h := harvester_canonicalization ["/xe-abc-12345?x=1"] "https://bonbanh.com"
    "https://bonbanh.com/xe-abc-12345"
  have hmem := h.1.mpr ⟨"/xe-abc-12345?x=1", by decide, by decide, by decide⟩
  exact ⟨hmem, h.2.1 hmem⟩

/-- C9: the bonbanh link harvester's output is invariant under
permuting the anchor enumeration (the accumulating `set` is followed by
`sorted`), which subsumes determinism: two runs over the same markup —
even with different internal set iteration orders — yield the same
candidate list, same elements and same order. -/
theorem harvester_deterministic (hrefs hrefs2 : List String) (baseUrl : String)
    (hperm : hrefs.Perm hrefs2) :
    extractListingLinks hrefs baseUrl = extractListingLinks hrefs2 baseUrl := by
  have hA := foldl_bonbanhStep_nodup baseUrl hrefs [] List.nodup_nil
  have hB := foldl_bonbanhStep_nodup baseUrl hrefs2 [] List.nodup_nil
  have hAB : (hrefs.foldl (bonbanhStep baseUrl) []).Perm
      (hrefs2.foldl (bonbanhStep baseUrl) []) := by
    rw [List.perm_ext_iff_of_nodup hA hB]
    intro u
    rw [foldl_bonbanhStep_mem baseUrl hrefs [], foldl_bonbanhStep_mem baseUrl hrefs2 []]
    constructor
    · rintro (hu | ⟨h, hh, hacc, rfl⟩)
      · exact absurd hu (List.not_mem_nil u)
      · exact Or.inr ⟨h, hperm.mem_iff.mp hh, hacc, rfl⟩
    · rintro (hu | ⟨h, hh, hacc, rfl⟩)
      · exact absurd hu (List.not_mem_nil u)
      · exact Or.inr ⟨h, hperm.mem_iff.mpr hh, hacc, rfl⟩
  exact List.eq_of_perm_of_sorted
    ((List.perm_insertionSort _ _).trans (hAB.trans (List.perm_insertionSort _ _).symm))
    (List.sorted_insertionSort _ _) (List.sorted_insertionSort _ _)

/-- C9 witness: two concrete anchor lists that are permutations of each
other produce the identical sorted candidate list. -/
theorem harvester_deterministic_witness :
    extractListingLinks ["/xe-a-11111", "/xe-b-22222"] "https://bonbanh.com" =
      extractListingLinks ["/xe-b-22222", "/xe-a-11111"] "https://bonbanh.com" :=
  harvester_deterministic _ _ _ (List.Perm.swap _ _ _)

/-- C10: in category mode, a listing whose fetch and parse succeeded is
appended exactly when its `"Năm sản xuất"` spec value exists, parses as
an integer, and is at least `YEAR_NOW - 3`; an absent year spec is
always discarded (the `.get` default `0` fails the cutoff since
`YEAR_NOW > 3`), and a non-numeric year is discarded too (the `int()`
error is swallowed by the per-URL handler), even though every other
field was extracted. -/
theorem year_filter (w : BonWorld) (yearNow : ℤ)
    (st : List ListingRecord × List String) (url html : String)
    (hy : 3 < yearNow) (hf : w.fetch url = .ok html) :
    ((bonListingStep w yearNow st url).1 =
        st.1 ++ [parseListingPage (w.textOf html) (w.titleOf html) url] ↔
      ∃ s y, dictGet (parseListingPage (w.textOf html) (w.titleOf html) url).specs
          "Năm sản xuất" = some s ∧ pyInt s = some y ∧ yearNow - 3 ≤ y) ∧
    (dictGet (parseListingPage (w.textOf html) (w.titleOf html) url).specs
        "Năm sản xuất" = none → (bonListingStep w yearNow st url).1 = st.1) ∧
    (∀ s, dictGet (parseListingPage (w.textOf html) (w.titleOf html) url).specs
        "Năm sản xuất" = some s → pyInt s = none →
      (bonListingStep w yearNow st url).1 = st.1) := by
  unfold bonListingStep
  rw [hf]
  dsimp only
  cases hg : dictGet (parseListingPage (w.textOf html) (w.titleOf html) url).specs
      "Năm sản xuất" with
  | none =>
    dsimp only
    have h0 : (0 : ℤ) < yearNow - 3 := by omega
    rw [if_pos h0]
    refine ⟨⟨fun hap => absurd hap.symm (by simp), ?_⟩, fun _ => rfl,
      fun s hs => absurd hs (by simp)⟩
    rintro ⟨s, y, hs, _, _⟩
    cases hs
  | some s =>
    dsimp only
    cases hp : pyInt s with
    | none =>
      dsimp only
      refine ⟨⟨fun hap => absurd hap.symm (by simp), ?_⟩,
        fun hch => absurd hch (by simp), fun _ _ _ => rfl⟩
      rintro ⟨s2, y, hs2, hp2, _⟩
      rw [Option.some_inj] at hs2
      subst hs2
      rw [hp] at hp2
      cases hp2
    | some y =>
      dsimp only
      by_cases hlt : y < yearNow - 3
      · rw [if_pos hlt]
        refine ⟨⟨fun hap => absurd hap.symm (by simp), ?_⟩,
          fun hch => absurd hch (by simp), fun s2 hs2 hp2 => ?_⟩
        · rintro ⟨s2, y2, hs2, hp2, hle⟩
          rw [Option.some_inj] at hs2
          subst hs2
          rw [hp, Option.some_inj] at hp2
          subst hp2
          omega
        · rfl
      · rw [if_neg hlt]
        refine ⟨⟨fun _ => ⟨s, y, rfl, hp, by omega⟩, fun _ => rfl⟩,
          fun hch => absurd hch (by simp), fun s2 hs2 hp2 => ?_⟩
        rw [Option.some_inj] at hs2
        subst hs2
        rw [hp] at hp2
        cases hp2

/-- C10 witness: a world whose page text carries
`"Năm sản xuất: 2023"` with `YEAR_NOW = 2026`: the record is appended
(`2023 ≥ 2026 - 3`). -/
theorem year_filter_witness :
    (bonListingStep
        { fetch := fun _ => .ok "h", anchorsOf := fun _ => [],
          textOf := fun _ => "Thông số kỹ thuật\nNăm sản xuất: 2023",
          titleOf := fun _ => "" } 2026 ([], []) "u").1 =
      [] ++ [parseListingPage "Thông số kỹ thuật\nNăm sản xuất: 2023" "" "u"] := by
  have h := year_filter
    { fetch := fun _ => .ok "h", anchorsOf := fun _ => [],
      textOf := fun _ => "Thông số kỹ thuật\nNăm sản xuất: 2023",
      titleOf := fun _ => "" } 2026 ([], []) "u" "h" (by norm_num) rfl
  exact h.1.mpr ⟨"2023", 2023, by decide, by decide, by decide⟩

theorem dictGet_dictInsert_self {β : Type} (kv : List (String × β)) (k : String)
    (v : β) : dictGet (dictInsert kv k v) k = some v := by
  induction kv with
  | nil => simp [dictInsert, dictGet]
  | cons p rest ih =>
    obtain ⟨k', v'⟩ := p
    unfold dictInsert
    by_cases h : k' = k
    · rw [if_pos h]
      simp [dictGet]
    · rw [if_neg h]
      unfold dictGet
      rw [if_neg h]
      exact ih

theorem dictGet_dictInsert_ne {β : Type} (kv : List (String × β)) (k k' : String)
    (v : β) (h : k' ≠ k) : dictGet (dictInsert kv k v) k' = dictGet kv k' := by
  induction kv with
  | nil =>
    show dictGet [(k, v)] k' = none
    unfold dictGet
    rw [if_neg fun he => h he.symm]
    rfl
  | cons p rest ih =>
    obtain ⟨k2, v2⟩ := p
    unfold dictInsert
    by_cases h2 : k2 = k
    · rw [if_pos h2]
      unfold dictGet
      rw [if_neg fun he => h he.symm, if_neg fun he => h (h2.symm.trans he).symm]
    · rw [if_neg h2]
      unfold dictGet
      by_cases h3 : k2 = k'
      · rw [if_pos h3, if_pos h3]
      · rw [if_neg h3, if_neg h3]
        exact ih

theorem dictGet_append_self {β : Type} (kv : List (String × β)) (k : String)
    (v : β) (h : dictGet kv k = none) :
    dictGet (kv ++ [(k, v)]) k = some v := by
  induction kv with
  | nil => simp [dictGet]
  | cons p rest ih =>
    obtain ⟨k2, v2⟩ := p
    rw [List.cons_append]
    unfold dictGet at h ⊢
    by_cases h2 : k2 = k
    · rw [if_pos h2] at h
      cases h
    · rw [if_neg h2] at h ⊢
      exact ih h

/-- The lines an unmatched line joins in the overflow bucket: the fold
of `parse_text_block` succeeds and the bucket holds exactly the
previously accumulated plus the newly unmatched lines, provided no
matched line produces the bucket key itself. -/
theorem tb_fold (lines : List String) :
    ∀ (kv : List (String × PyVal)) (ov : List String),
      (∀ ln ∈ lines, (lineKV ln.toList).map Prod.fst ≠ some bucketKey) →
      dictGet kv bucketKey = (if ov.isEmpty then none else some (.strList ov)) →
      ∃ kv', lines.foldlM tbStep kv = .ok kv' ∧
        dictGet kv' bucketKey =
          (if (ov ++ lines.filter fun ln => (lineKV ln.toList).isNone).isEmpty then none
           else some (.strList (ov ++ lines.filter fun ln => (lineKV ln.toList).isNone))) := by
  induction lines with
  | nil =>
    intro kv ov _ hkv
    exact ⟨kv, rfl, by simpa using hkv⟩
  | cons ln rest ih =>
    intro kv ov h hkv
    rw [List.foldlM_cons]
    cases hline : lineKV ln.toList with
    | some p =>
      obtain ⟨k, v⟩ := p
      have hk : k ≠ bucketKey := fun he => h ln (List.mem_cons_self ln rest)
        (by rw [hline]; exact congrArg some he)
      rw [show tbStep kv ln = .ok (dictInsert kv k (.str v)) by
        unfold tbStep; rw [hline]]
      have hkv2 : dictGet (dictInsert kv k (.str v)) bucketKey =
          (if ov.isEmpty then none else some (.strList ov)) := by
        rw [dictGet_dictInsert_ne _ _ _ _ (fun he => hk he.symm)]
        exact hkv
      obtain ⟨kv', hfold, hget⟩ := ih (dictInsert kv k (.str v)) ov
        (fun l hl => h l (List.mem_cons_of_mem ln hl)) hkv2
      refine ⟨kv', by simpa using hfold, ?_⟩
      rw [hget]
      have : (List.filter (fun l => (lineKV l.toList).isNone) (ln :: rest)) =
          List.filter (fun l => (lineKV l.toList).isNone) rest := by
        rw [List.filter_cons, hline]
        simp
      rw [this]
    | none =>
      cases hov : ov.isEmpty with
      | true =>
        rw [hov, if_pos rfl] at hkv
        rw [show tbStep kv ln = .ok (kv ++ [(bucketKey, .strList [ln])]) by
          unfold tbStep; rw [hline, hkv]]
        have hkv2 : dictGet (kv ++ [(bucketKey, .strList [ln])]) bucketKey =
            (if ([ln] : List String).isEmpty then none
             else some (.strList [ln])) := by
          rw [if_neg (by simp)]
          exact dictGet_append_self kv bucketKey _ hkv
        obtain ⟨kv', hfold, hget⟩ := ih (kv ++ [(bucketKey, .strList [ln])]) [ln]
          (fun l hl => h l (List.mem_cons_of_mem ln hl)) hkv2
        refine ⟨kv', by simpa using hfold, ?_⟩
        rw [hget]
        have hove : ov = [] := List.isEmpty_iff.mp hov
        subst hove
        have : List.filter (fun l => (lineKV l.toList).isNone) (ln :: rest) =
            ln :: List.filter (fun l => (lineKV l.toList).isNone) rest := by
          rw [List.filter_cons, hline]
          simp
        rw [this]
        simp
      | false =>
        rw [hov, if_neg (by simp)] at hkv
        rw [show tbStep kv ln = .ok (dictInsert kv bucketKey (.strList (ov ++ [ln]))) by
          unfold tbStep; rw [hline, hkv]]
        have hkv2 : dictGet (dictInsert kv bucketKey (.strList (ov ++ [ln]))) bucketKey =
            (if (ov ++ [ln]).isEmpty then none
             else some (.strList (ov ++ [ln]))) := by
          rw [if_neg (by simp)]
          exact dictGet_dictInsert_self kv bucketKey _
        obtain ⟨kv', hfold, hget⟩ := ih (dictInsert kv bucketKey (.strList (ov ++ [ln])))
          (ov ++ [ln]) (fun l hl => h l (List.mem_cons_of_mem ln hl)) hkv2
        refine ⟨kv', by simpa using hfold, ?_⟩
        rw [hget]
        have : List.filter (fun l => (lineKV l.toList).isNone) (ln :: rest) =
            ln :: List.filter (fun l => (lineKV l.toList).isNone) rest := by
          rw [List.filter_cons, hline]
          simp
        rw [this]
        simp

theorem pkvGo_no_colon : ∀ (lines : List (List Char)),
    (∀ ln ∈ lines, ':' ∉ ln) → ∀ kv, pkvGo lines kv = kv := by
  intro lines
  induction lines with
  | nil => intro _ kv; rfl
  | cons line rest ih =>
    intro h kv
    have hline : ':' ∉ line := h line (List.mem_cons_self line rest)
    have hlast : ¬(line.getLast? = some ':') := fun hl =>
      hline (List.mem_of_getLast?_eq_some hl)
    have hcont : ¬(line.contains ':' = true) := fun hc =>
      hline (List.elem_iff.mp hc)
    have hrest : ∀ ln ∈ rest, ':' ∉ ln := fun l hl => h l (List.mem_cons_of_mem line hl)
    cases rest with
    | nil =>
      show pkvGo [line] kv = kv
      unfold pkvGo
      rw [if_neg hlast, if_neg hcont]
    | cons next rest2 =>
      show pkvGo (line :: next :: rest2) kv = kv
      unfold pkvGo
      rw [if_neg hlast, if_neg hcont]
      exact ih hrest kv

/-- C6 counterexample: in the bonbanh spec parser the line `"abc"`
matches no key/value strategy and is silently dropped — the returned
map is empty, with no overflow bucket. -/
theorem bonbanh_drops_unmatched_line :
    parseKeyValuesFromSection "abc" = [] := by decide

/-- C6 (amended): in the chotot spec parser (`parse_text_block`) every
unmatched line accumulates, in order, into the `"Thông số khác"`
overflow bucket of the returned map (joined with `"; "`), provided no
matched line produced that very key (otherwise the `.append` on a
string raises `AttributeError`); the bonbanh
`parse_key_values_from_section`, by contrast, silently drops lines
without a colon. -/
theorem overflow_bucket (blockText : String)
    (h : ∀ ln ∈ pyLinesStripped blockText,
      (lineKV ln.toList).map Prod.fst ≠ some bucketKey) :
    (∃ kv, parseTextBlock blockText = .ok kv ∧
      dictGet kv bucketKey =
        (if ((pyLinesStripped blockText).filter
              fun ln => (lineKV ln.toList).isNone).isEmpty then none
         else some (.str (String.intercalate "; "
            ((pyLinesStripped blockText).filter
              fun ln => (lineKV ln.toList).isNone))))) ∧
    (∀ text : String, (∀ ln ∈ pyLinesStrippedL text.toList, ':' ∉ ln) →
      parseKeyValuesFromSection text = []) := by
  constructor
  · obtain ⟨kv', hfold, hget⟩ := tb_fold (pyLinesStripped blockText) [] [] h rfl
    rw [List.nil_append] at hget
    refine ⟨tbFinish kv', ?_, ?_⟩
    · unfold parseTextBlock
      rw [hfold]
    · cases hov : ((pyLinesStripped blockText).filter
          fun ln => (lineKV ln.toList).isNone).isEmpty with
      | true =>
        rw [hov, if_pos rfl] at hget
        rw [if_pos rfl]
        unfold tbFinish
        rw [hget]
        exact hget
      | false =>
        rw [hov, if_neg (by simp)] at hget
        rw [if_neg (by simp)]
        unfold tbFinish
        rw [hget]
        exact dictGet_dictInsert_self kv' bucketKey _
  · intro text htext
    unfold parseKeyValuesFromSection
    exact pkvGo_no_colon _ htext []

/-- C6 witness: in `"Hãng: Toyota\nxyz"` the line `"xyz"` matches no
strategy and ends up in the overflow bucket; and `"abc"`, colon-free,
is dropped by the bonbanh parser. -/
theorem overflow_bucket_witness :
    (∃ kv, parseTextBlock "Hãng: Toyota\nxyz" = .ok kv ∧
      dictGet kv bucketKey = some (.str "xyz")) ∧
    parseKeyValuesFromSection "abc" = [] := by
  have h := overflow_bucket "Hãng: Toyota\nxyz" (by decide)
  obtain ⟨⟨kv, hok, hget⟩, hdrop⟩ := h
  refine ⟨⟨kv, hok, ?_⟩, hdrop "abc" (by decide)⟩
  rw [hget]
  decide

end DSG10
